import Mathlib

/-!
# Finance tracker (`src/script.js`): shallow embedding and verified properties

The ledger is the global array `transactions`, mirrored to one `localStorage`
slot.  Each operation of the script is embedded as a function on an explicit
`State`; effects on the page (alerts, the downloaded file) are recorded in the
state, and an uncaught exception is an `Except` error.

Amounts are JavaScript Numbers, i.e. IEEE 754 binary64 values.  They are
embedded exactly: a finite double is a sign and a magnitude counted in units of
`2 ^ (-1074)` (the smallest subnormal), so every finite double is a natural
number of units, and `+` rounds the exact sum to nearest, ties to even.

Every mutation saves the array with `JSON.stringify` and reloads it with
`JSON.parse`; the reload is embedded record by record (`jsonReload`): it turns
a `NaN` or infinite amount into `null` and `-0` into `0`.
-/

set_option exponentiation.threshold 4000
set_option maxRecDepth 100000

/-! ## JavaScript Numbers -/

/-- A JavaScript Number: `NaN`, an infinity, or a finite double of value
`(-1)^neg * mag * 2^(-1074)` (`fin true 0` is `-0`). -/
inductive JSNum where
  | nan
  | inf (neg : Bool)
  | fin (neg : Bool) (mag : Nat)
  deriving DecidableEq, Repr

namespace JSNum

/-- Number of binary digits of `n`, by halving at most `fuel` times. -/
def bitLenAux : Nat → Nat → Nat
  | 0, _ => 0
  | fuel + 1, n => if n = 0 then 0 else bitLenAux fuel (n / 2) + 1

/-- Number of binary digits of `n` (`0` for `0`). -/
def bitLen (n : Nat) : Nat := bitLenAux n n

/-- The magnitude (in units of `2^(-1074)`) of the double nearest to `N / D` units, ties
to the even significand.  A significand has at most 53 bits, so a value with more bits is
rounded to a multiple of `2 ^ sh`, where `sh` is the number of excess bits. -/
def roundMag (N D : Nat) : Nat :=
  let sh := bitLen (N / D) - 53
  let U := D * 2 ^ sh
  let q := N / U
  let r := N % U
  if U < 2 * r ∨ (2 * r = U ∧ q % 2 = 1) then (q + 1) * 2 ^ sh else q * 2 ^ sh

/-- The magnitude `2^1024`, in units of `2^(-1074)`: no finite double reaches it. -/
def overflowLimit : Nat := 2 ^ 2098

/-- A rounded magnitude as a Number: magnitudes from `2^1024` on overflow to an
infinity. -/
def ofRounded (s : Bool) (m : Nat) : JSNum :=
  if overflowLimit ≤ m then inf s else fin s m

/-- The exact value of a finite double, in units of `2^(-1074)`. -/
def signed (s : Bool) (m : Nat) : Int := if s then -(m : Int) else (m : Int)

/-- The Number `+0`, the initial value of both `reduce` calls. -/
def zero : JSNum := fin false 0

/-- JavaScript `a + b` on Numbers (IEEE 754 addition, round to nearest even). -/
def add : JSNum → JSNum → JSNum
  | nan, _ => nan
  | _, nan => nan
  | inf s, inf t => if s = t then inf s else nan
  | inf s, fin _ _ => inf s
  | fin _ _, inf t => inf t
  | fin s a, fin t b =>
    let z := signed s a + signed t b
    if z = 0 then fin (s && t) 0
    else ofRounded (decide (z < 0)) (roundMag z.natAbs 1)

/-- JavaScript unary `-a`. -/
def neg : JSNum → JSNum
  | nan => nan
  | inf s => inf (!s)
  | fin s m => fin (!s) m

/-- JavaScript `Math.abs(a)`. -/
def abs : JSNum → JSNum
  | nan => nan
  | inf _ => inf false
  | fin _ m => fin false m

/-- JavaScript `a - b`. -/
def sub (a b : JSNum) : JSNum := add a (neg b)

/-- JavaScript `a < 0`. -/
def ltZero : JSNum → Bool
  | nan => false
  | inf s => s
  | fin s m => s && decide (m ≠ 0)

/-- JavaScript `a > 0`. -/
def gtZero : JSNum → Bool
  | nan => false
  | inf s => !s
  | fin s m => !s && decide (m ≠ 0)

/-- The double of integer value `k`; exact for `|k| ≤ 2^53`. -/
def ofInt (k : Int) : JSNum := fin (decide (k < 0)) (k.natAbs * 2 ^ 1074)

/-- The double nearest to the decimal `digits / 10 ^ scale`, negated when `neg` is set:
the value `parseFloat` reads from decimal text. -/
def ofDecimal (neg : Bool) (digits scale : Nat) : JSNum :=
  ofRounded neg (roundMag (digits * 2 ^ 1074) (10 ^ scale))

/-- Whether the Number is finite. -/
def isFinite : JSNum → Bool
  | fin _ _ => true
  | _ => false

/-- The exact value of a finite Number in units of `2^(-1074)` (`0` for the others). -/
def units : JSNum → Int
  | fin s m => signed s m
  | _ => 0

/-- The magnitude of a finite Number in units of `2^(-1074)` (`0` for the others). -/
def mag : JSNum → Nat
  | fin _ m => m
  | _ => 0

/-- The Number of exact value `z` units, with `+0` for `0`. -/
def ofUnits (z : Int) : JSNum := fin (decide (z < 0)) z.natAbs

end JSNum

/-! ## Values of the amount field -/

/-- The value of an `amount` field: a Number, or the `null` that a `NaN` or infinite amount
becomes when the ledger is saved and loaded again. -/
inductive JSVal where
  | num (x : JSNum)
  | null
  deriving DecidableEq, Repr

namespace JSVal

/-- `ToNumber`: the Number that `+`, `<` and `Math.abs` read the value as; `null` reads as
`+0`. -/
def toNumber : JSVal → JSNum
  | num x => x
  | null => JSNum.zero

/-- `JSON.parse(JSON.stringify(v))` on the value of an amount field: `JSON.stringify`
writes `NaN` and the infinities as `null` and `-0` as `0`; every other finite Number is
written with digits that read back as the same double. -/
def jsonRoundTrip : JSVal → JSVal
  | num (.fin s m) => num (.fin (s && decide (m ≠ 0)) m)
  | num _ => null
  | null => null

end JSVal

/-! ## Data model -/

/-- A transaction record as built in `addTransaction`; `id` is a clock reading, the other
fields but `amount` are texts. -/
structure Transaction where
  id : Nat
  type : String
  category : String
  amount : JSVal
  date : String
  note : String
  deriving DecidableEq, Repr

/-- The record `JSON.parse(JSON.stringify(t))`: the id and the texts come back as they
were, the amount as `JSVal.jsonRoundTrip` says. -/
def jsonReload (t : Transaction) : Transaction :=
  { t with amount := t.amount.jsonRoundTrip }

/-- Content of the `localStorage` slot `STORAGE_KEY`.  `JSON.stringify` and `JSON.parse`
are platform functions: the text that `saveTransactions` writes for a sequence is
represented by that sequence, and `JSON.parse` reads it as the sequence of the reloaded
records (`jsonReload`); any other text is kept as is and handed to the parser. -/
inductive Blob where
  | saved (ts : List Transaction)
  | text (raw : String)
  deriving DecidableEq, Repr

/-- A file handed to the browser's download mechanism. -/
structure Download where
  filename : String
  content : String
  deriving DecidableEq, Repr

/-- The program state: the global `transactions`, the storage slot, and the effects on the
page that the properties speak about (alerts shown, files downloaded). -/
structure State where
  transactions : List Transaction
  storage : Option Blob
  alerts : List String
  downloads : List Download
  deriving DecidableEq, Repr

/-- The state of a fresh page on an empty storage. -/
def State.empty : State := ⟨[], none, [], []⟩

/-- The platform's `JSON.parse`, restricted to results that are arrays of transaction
records; an error is the thrown `SyntaxError`. -/
abbrev JsonParse := String → Except String (List Transaction)

/-! ## Storage -/

/-- `loadTransactions`: `storedData ? JSON.parse(storedData) : []`.  `null` and the empty
string are falsy; the text of a saved sequence is read as its reloaded records; an
exception of `JSON.parse` propagates and nothing is assigned. -/
def loadTransactions (jsonParse : JsonParse) (s : State) : Except String State :=
  match s.storage with
  | none => .ok { s with transactions := [] }
  | some (.saved ts) => .ok { s with transactions := ts.map jsonReload }
  | some (.text raw) =>
    if raw = "" then .ok { s with transactions := [] }
    else match jsonParse raw with
      | .ok ts => .ok { s with transactions := ts }
      | .error e => .error e

/-- `saveTransactions`: overwrite the slot with the serialised array. -/
def saveTransactions (s : State) : State :=
  { s with storage := some (.saved s.transactions) }

/-- `init`: reload the array from storage; the other calls of `init` only render. -/
def init (jsonParse : JsonParse) (s : State) : Except String State :=
  loadTransactions jsonParse s

/-! ## Totals -/

/-- The three values `updateValues` shows: income, `Math.abs(expense)` and balance. -/
structure Totals where
  income : JSNum
  expense : JSNum
  balance : JSNum
  deriving DecidableEq, Repr

/-- `updateValues`: two filtered `reduce` passes and `income - Math.abs(expense)`; `+`
reads each amount as a Number. -/
def updateValues (transactions : List Transaction) : Totals :=
  let income := (transactions.filter (fun t => t.type = "Income")).foldl
    (fun acc t => JSNum.add acc t.amount.toNumber) JSNum.zero
  let expense := (transactions.filter (fun t => t.type = "Expense")).foldl
    (fun acc t => JSNum.add acc t.amount.toNumber) JSNum.zero
  let balance := JSNum.sub income (JSNum.abs expense)
  ⟨income, JSNum.abs expense, balance⟩

/-! ## Mutations -/

/-- The values `addTransaction` reads from the form; `amount` is the result of
`parseFloat` on the amount field. -/
structure Form where
  amount : JSNum
  category : String
  type : String
  date : String
  note : String
  deriving DecidableEq, Repr

/-- The record `transaction` that `addTransaction` builds, with `now` the reading of
`Date.now()`. -/
def newTransaction (form : Form) (now : Nat) : Transaction :=
  { id := now
    type := form.type
    category := form.category
    amount := .num (if form.type = "Expense" then JSNum.neg form.amount else form.amount)
    date := form.date
    note := form.note }

/-- `addTransaction`, with `now` the reading of `Date.now()`. -/
def addTransaction (jsonParse : JsonParse) (form : Form) (now : Nat) (s : State) :
    Except String State :=
  if form.category = "Custom" then
    .ok { s with alerts := s.alerts ++
      ["Please enter a new category name or select an existing one."] }
  else
    let transaction := newTransaction form now
    init jsonParse (saveTransactions { s with transactions := s.transactions ++ [transaction] })

/-- `deleteTransaction`. -/
def deleteTransaction (jsonParse : JsonParse) (id : Nat) (s : State) : Except String State :=
  init jsonParse (saveTransactions
    { s with transactions := s.transactions.filter (fun t => t.id ≠ id) })

/-- Ledgers reachable from the empty ledger by `addTransaction` and `deleteTransaction`,
where every submitted amount satisfies `allowed`. -/
inductive Reachable (jsonParse : JsonParse) (allowed : JSNum → Prop) : State → Prop where
  | start : Reachable jsonParse allowed State.empty
  | add {s s2 : State} (form : Form) (now : Nat) :
      Reachable jsonParse allowed s → allowed form.amount →
      addTransaction jsonParse form now s = .ok s2 → Reachable jsonParse allowed s2
  | delete {s s2 : State} (id : Nat) :
      Reachable jsonParse allowed s →
      deleteTransaction jsonParse id s = .ok s2 → Reachable jsonParse allowed s2

/-! ## View projection: filter and sort -/

/-- The platform's date parser behind `new Date(text)`: the time value in milliseconds
since the epoch, or `none` for an invalid date. -/
abbrev DateParse := String → Option Int

/-- `new Date(text)` converted to a Number, as the subtraction in the comparator does: the
time value (an integer of magnitude at most 8.64e15, exactly representable), `NaN` for an
invalid date. -/
def dateValue (parseDate : DateParse) (text : String) : JSNum :=
  match parseDate text with
  | none => JSNum.nan
  | some ms => JSNum.ofInt ms

/-- The comparator passed to `sort` in `renderTransactionList`. -/
def compareFn (parseDate : DateParse) (sortOrder : String) (a b : Transaction) : JSNum :=
  if sortOrder = "newest" then
    JSNum.sub (dateValue parseDate b.date) (dateValue parseDate a.date)
  else if sortOrder = "oldest" then
    JSNum.sub (dateValue parseDate a.date) (dateValue parseDate b.date)
  else if sortOrder = "amount-high" then
    JSNum.sub (JSNum.abs b.amount.toNumber) (JSNum.abs a.amount.toNumber)
  else JSNum.zero

/-- `Array.prototype.sort` with a comparator.  The sort is stable and `a` stays before `b`
unless the comparator answers a Number greater than `0` (`NaN` counts as `0`); it is
embedded as the stable insertion sort, which is the result of every conforming sort when
the comparator is consistent. -/
def arraySort (cmp : Transaction → Transaction → JSNum) (l : List Transaction) :
    List Transaction :=
  l.insertionSort (fun a b => JSNum.gtZero (cmp a b) = false)

/-- Step 1 of `renderTransactionList`: the category filter. -/
def filteredTransactions (filterCategory : String) (transactions : List Transaction) :
    List Transaction :=
  transactions.filter (fun t => filterCategory = "all" ∨ t.category = filterCategory)

/-- Step 2 of `renderTransactionList`: the sort of a copy of the filtered list. -/
def sortedTransactions (parseDate : DateParse) (sortOrder : String)
    (filtered : List Transaction) : List Transaction :=
  arraySort (compareFn parseDate sortOrder) filtered

/-! ## CSV export -/

/-- The magnitude `10^21`, in units of `2^(-1074)`: from here on `toFixed` falls back to
`Number::toString`. -/
def fixedLimit : Nat := 10 ^ 21 * 2 ^ 1074

/-- The integer `n` for which `n / 100` is nearest to the magnitude `m` (in units of
`2^(-1074)`), the larger one on a tie: the floor of `100 * m / 2^1074 + 1/2`. -/
def nearestHundredths (m : Nat) : Nat := (200 * m + 2 ^ 1074) / 2 ^ 1075

/-- Whether the decimal `s * 10^e` is read as the double of magnitude `m`. -/
def readsBack (m s e : Nat) : Bool := JSNum.roundMag (s * 10 ^ e * 2 ^ 1074) 1 == m

/-- The shortest decimal digits of the integer `N` (of `n` digits, the double of magnitude
`m`): the first `k`, counting up from the given one, for which a `k`-digit `s` with
`s * 10^(n-k)` read back as the same double exists; of two such `s` the one nearer to `N`,
the even one on a tie.  The result is `s` and its power of ten. -/
def shortestDigits (m N n : Nat) : Nat → Nat → Nat × Nat
  | 0, _ => (N, 0)
  | fuel + 1, k =>
    let e := n - k
    let lo := N / 10 ^ e
    let hi := lo + 1
    let pick : Nat × Nat := if hi = 10 ^ k then (10 ^ (k - 1), e + 1) else (hi, e)
    if readsBack m lo e && readsBack m hi e then
      if N - lo * 10 ^ e < hi * 10 ^ e - N then (lo, e)
      else if hi * 10 ^ e - N < N - lo * 10 ^ e then pick
      else if lo % 2 = 0 then (lo, e) else pick
    else if readsBack m lo e then (lo, e)
    else if readsBack m hi e then pick
    else shortestDigits m N n fuel (k + 1)

/-- `Number::toString` of a finite Number of magnitude `m` units that is at least `10^21`
(so an integer): exponent notation with the shortest digits that read back as the same
double, as in `1e+21` and `1.5e+300`. -/
def exponentString (m : Nat) : String :=
  let N := m / 2 ^ 1074
  let n := (Nat.toDigits 10 N).length
  let se := shortestDigits m N n n 1
  let ds := Nat.toDigits 10 se.1
  String.mk (ds.take 1) ++ (if 1 < ds.length then "." ++ String.mk (ds.drop 1) else "") ++
    "e+" ++ Nat.repr (se.2 + ds.length - 1)

/-- `Number.prototype.toFixed(2)`.  A finite value below `10^21` in magnitude is printed as
the integer `n` nearest to `100 * |x|` (the larger one on a tie), padded to three digits,
with a point before the last two; any other value is printed as `Number::toString` prints
it, after the sign. -/
def toFixed2 : JSNum → String
  | .nan => "NaN"
  | .inf s => if s then "-Infinity" else "Infinity"
  | .fin s m =>
    let sign := if s && decide (m ≠ 0) then "-" else ""
    if fixedLimit ≤ m then sign ++ exponentString m
    else
      let n := nearestHundredths m
      let digits := (Nat.repr n).toList
      let padded :=
        if digits.length ≤ 2 then List.replicate (3 - digits.length) '0' ++ digits else digits
      sign ++ String.mk (padded.take (padded.length - 2)) ++ "." ++
        String.mk (padded.drop (padded.length - 2))

/-- Whether `toFixed(2)` prints the amount in fixed notation: a finite Number below `10^21`
in magnitude. -/
def fixedRange : JSVal → Bool
  | .num (.fin _ m) => decide (m < fixedLimit)
  | _ => false

/-- `note.replace(/,/g, '')`: the note without its commas. -/
def stripCommas (note : String) : String :=
  String.mk (note.toList.filter (fun c => c ≠ ','))

/-- The header row of the export. -/
def csvHeader : List String := ["ID", "Date", "Type", "Category", "Amount (NGN)", "Note"]

/-- One row of the export: the six fields joined by commas.  The id is a clock reading,
an integer below `10^21`, which `join` prints in decimal.  Calling `toFixed` on an amount
that is `null` throws a `TypeError`. -/
def csvRow (t : Transaction) : Except String String :=
  match (if t.type = "Income" then t.amount else t.amount) with
  | .null => .error "TypeError"
  | .num x =>
    .ok (String.intercalate ","
      [toString t.id, t.date, t.type, t.category, toFixed2 x, stripCommas t.note])

/-- `transactions.map(t => ...)`: the rows in ledger order, or the first exception. -/
def csvRows : List Transaction → Except String (List String)
  | [] => .ok []
  | t :: ts =>
    match csvRow t with
    | .error e => .error e
    | .ok r =>
      match csvRows ts with
      | .error e => .error e
      | .ok rs => .ok (r :: rs)

/-- `exportToCsv`, with `today` the text of `new Date().toISOString().slice(0, 10)`.  An
exception thrown while the rows are built ends the call before any file is made. -/
def exportToCsv (today : String) (s : State) : Except String State :=
  if s.transactions.length = 0 then
    .ok { s with alerts := s.alerts ++ ["No data to export!"] }
  else
    match csvRows s.transactions with
    | .error e => .error e
    | .ok rows =>
      let csvContent := String.intercalate "\n" (String.intercalate "," csvHeader :: rows)
      .ok { s with downloads := s.downloads ++
        [⟨"finance_tracker_export_" ++ today ++ ".csv", csvContent⟩] }

/-! ## Ledger predicates used in the statements -/

/-- The time value of the date of a transaction (`0` when the date is invalid). -/
def timeValue (parseDate : DateParse) (t : Transaction) : Int := (parseDate t.date).getD 0

/-- The exact sum of the signed amounts of a ledger, in units of `2^(-1074)`. -/
def ledgerUnits (ts : List Transaction) : Int :=
  (ts.map (fun t => JSNum.units t.amount.toNumber)).sum

/-- The exact sum of the magnitudes of the amounts of a ledger, in units of `2^(-1074)`. -/
def ledgerMag (ts : List Transaction) : Nat :=
  (ts.map (fun t => JSNum.mag t.amount.toNumber)).sum

/-- The sign convention: every type is Income or Expense, Income amounts are positive and
Expense amounts are negative. -/
def SignConvention (ts : List Transaction) : Prop :=
  ∀ t ∈ ts, (t.type = "Income" ∧ JSNum.gtZero t.amount.toNumber = true) ∨
    (t.type = "Expense" ∧ JSNum.ltZero t.amount.toNumber = true)

/-- No sum over the ledger needs rounding: every amount is a finite multiple of `2^e` units
and the magnitudes add up to less than `2^(e+53)` units, so that every partial sum fits
the 53 bits of a significand, and to less than `2^1024` (`2^2098` units), so that no sum
overflows.  With `e = 1074` these are the ledgers of whole-number amounts
whose magnitudes add up to less than `2^53`. -/
def ExactLedger (e : Nat) (ts : List Transaction) : Prop :=
  (∀ t ∈ ts, JSNum.isFinite t.amount.toNumber = true ∧ 2 ^ e ∣ JSNum.mag t.amount.toNumber) ∧
    ledgerMag ts < 2 ^ (e + 53) ∧ ledgerMag ts < JSNum.overflowLimit

/-- The ledgers that a save and reload leave unchanged: no amount is `NaN`, infinite or
`-0`.  Every ledger that the script has loaded from its own save is one. -/
def Reloaded (ts : List Transaction) : Prop := ∀ t ∈ ts, jsonReload t = t

/-- The amounts of the ledger are all Numbers: none is `null`. -/
def AllNumbers (ts : List Transaction) : Prop := ∀ t ∈ ts, t.amount ≠ .null

/-! ## Concrete inputs used in the examples -/

namespace Example

/-- A `JSON.parse` that rejects every text; it agrees with the platform on the texts the
examples hand to it. -/
def rejectAll : JsonParse := fun _ => .error "SyntaxError"

/-- An Income form with the negative amount `-5`. -/
def negativeIncome : Form := ⟨JSNum.ofInt (-5), "Salary", "Income", "2024-01-01", ""⟩

/-- An Expense form whose amount field reads `Infinity`. -/
def infiniteExpense : Form := ⟨JSNum.inf false, "Rent", "Expense", "2024-01-02", ""⟩

/-- An Income form whose amount field is blank: `parseFloat` gives `NaN`. -/
def blankAmount : Form := ⟨JSNum.nan, "Salary", "Income", "2024-01-01", ""⟩

/-- The Income form of the example scenario of the spec. -/
def salary : Form := ⟨JSNum.ofInt 5000, "Salary", "Income", "2024-01-01", ""⟩

/-- The Expense form of the example scenario of the spec. -/
def rent : Form := ⟨JSNum.ofInt 2000, "Rent", "Expense", "2024-01-02", ""⟩

/-- The ledger Income `0.1`, Expense `-0.3`, Income `0.2`. -/
def roundingLedger : List Transaction :=
  [⟨1704067200000, "Income", "Freelance", .num (JSNum.ofDecimal false 1 1), "2024-01-01", ""⟩,
   ⟨1704153600000, "Expense", "Food & Drinks", .num (JSNum.ofDecimal true 3 1),
     "2024-01-02", ""⟩,
   ⟨1704240000000, "Income", "Freelance", .num (JSNum.ofDecimal false 2 1), "2024-01-03", ""⟩]

/-- The ledger of the example scenario: Income 5000, Expense 2000 (stored as `-2000`). -/
def scenarioLedger : List Transaction :=
  [⟨1704067200000, "Income", "Salary", .num (JSNum.ofInt 5000), "2024-01-01", ""⟩,
   ⟨1704153600000, "Expense", "Rent", .num (JSNum.neg (JSNum.ofInt 2000)), "2024-01-02", ""⟩]

/-- The ledger after the blank-amount Income has been added to the empty ledger: the
`NaN` was saved as `null`. -/
def nullLedger : List Transaction :=
  [⟨1704067200000, "Income", "Salary", .null, "2024-01-01", ""⟩]

/-- A date parser that knows the three days of the examples (midnight UTC, in
milliseconds since the epoch) and rejects every other text. -/
def parseDay : DateParse := fun text =>
  if text = "2024-01-01" then some 1704067200000
  else if text = "2024-01-02" then some 1704153600000
  else if text = "2024-01-03" then some 1704240000000
  else none

/-- A ledger with one Income of amount `1e21`. -/
def hugeLedger : List Transaction :=
  [⟨1704067200000, "Income", "Salary", .num (JSNum.ofInt (10 ^ 21)), "2024-01-01", ""⟩]

/-- A state whose storage slot holds the text `\x7b`, which is not JSON. -/
def corruptStorage : State := ⟨[], some (.text "\x7b"), [], []⟩

end Example

/-! ## Specification-side definitions -/

namespace Spec

/-- The sum of Numbers continued from the accumulator `acc`, left to right. -/
def sumFrom (acc : JSNum) : List JSNum → JSNum
  | [] => acc
  | x :: xs => sumFrom (JSNum.add acc x) xs

/-- The sum of a sequence of Numbers, accumulated from left to right starting at `0`. -/
def sum (xs : List JSNum) : JSNum := sumFrom JSNum.zero xs

/-- The totals as the spec words them: the sum of the Income amounts, the absolute value
of the sum of the Expense amounts, and their difference. -/
def totals (ts : List Transaction) : Totals :=
  let totalIncome :=
    sum ((ts.filter (fun t => t.type = "Income")).map (fun t => t.amount.toNumber))
  let totalExpense := JSNum.abs
    (sum ((ts.filter (fun t => t.type = "Expense")).map (fun t => t.amount.toNumber)))
  ⟨totalIncome, totalExpense, JSNum.sub totalIncome totalExpense⟩

/-- A Number with exactly two decimal places: the sign, the digits of the whole part, a
point and two digits, where the digits are those of the integer nearest to `100 * |x|`. -/
def fixed2 (x : JSNum) : String :=
  let n := nearestHundredths (JSNum.mag x)
  (if JSNum.ltZero x then "-" else "") ++ Nat.repr (n / 100) ++ "." ++
    String.mk [Nat.digitChar (n / 10 % 10), Nat.digitChar (n % 10)]

/-- A row as the spec words it: id, date, type, category, the amount with two decimal
places and the note without its commas, separated by commas. -/
def row (t : Transaction) : String :=
  toString t.id ++ "," ++ t.date ++ "," ++ t.type ++ "," ++ t.category ++ "," ++
    fixed2 t.amount.toNumber ++ "," ++ String.mk (t.note.toList.filter (fun c => c ≠ ','))

/-- A row with the amount as `toFixed(2)` prints it, whatever the Number. -/
def exportRow (t : Transaction) : String :=
  toString t.id ++ "," ++ t.date ++ "," ++ t.type ++ "," ++ t.category ++ "," ++
    toFixed2 t.amount.toNumber ++ "," ++ String.mk (t.note.toList.filter (fun c => c ≠ ','))

/-- The rows, each on a line of its own after what precedes it. -/
def lines : List String → String
  | [] => ""
  | r :: rs => "\n" ++ r ++ lines rs

/-- The CSV text: the fixed header row followed by one row per transaction, in order. -/
def csv (ts : List Transaction) : String :=
  "ID,Date,Type,Category,Amount (NGN),Note" ++ lines (ts.map row)

/-- The text of the exported file: the fixed header row followed by one row per
transaction, in order, with the amounts as `toFixed(2)` prints them. -/
def exportText (ts : List Transaction) : String :=
  "ID,Date,Type,Category,Amount (NGN),Note" ++ lines (ts.map exportRow)

end Spec

/-! ## Basic lemmas on the operations -/

/-- The spec-side sum over the amounts is the `reduce` of the code. -/
theorem Spec.sumFrom_map_amount (acc : JSNum) (ts : List Transaction) :
    Spec.sumFrom acc (ts.map (fun t => t.amount.toNumber)) =
      ts.foldl (fun acc t => JSNum.add acc t.amount.toNumber) acc := by
  induction ts generalizing acc with
  | nil => rfl
  | cons t ts ih => simp [Spec.sumFrom, ih]

/-- A second save and reload changes nothing. -/
theorem jsonReload_idem (t : Transaction) : jsonReload (jsonReload t) = jsonReload t := by
  cases t with
  | mk id type category amount date note =>
    cases amount with
    | null => rfl
    | num x =>
      cases x with
      | nan => rfl
      | inf s => rfl
      | fin s m => cases s <;> simp [jsonReload, JSVal.jsonRoundTrip]

/-- The reload changes nothing on a ledger that it leaves unchanged record by record. -/
theorem map_jsonReload_of_reloaded {ts : List Transaction} (h : Reloaded ts) :
    ts.map jsonReload = ts := by
  induction ts with
  | nil => rfl
  | cons t ts ih =>
    rw [List.map_cons, h t (List.mem_cons_self _ _),
      ih (fun u hu => h u (List.mem_cons_of_mem _ hu))]

/-- Every reloaded ledger is left unchanged by a further reload. -/
theorem reloaded_map (ts : List Transaction) : Reloaded (ts.map jsonReload) := by
  intro t ht
  obtain ⟨u, _, rfl⟩ := List.mem_map.mp ht
  exact jsonReload_idem u

/-- With a category other than `Custom`, `addTransaction` pushes the record, saves, and
reloads the saved sequence. -/
theorem addTransaction_ok (jsonParse : JsonParse) (form : Form) (now : Nat) (s : State)
    (h : form.category ≠ "Custom") :
    addTransaction jsonParse form now s = .ok
      { s with
        transactions := (s.transactions ++ [newTransaction form now]).map jsonReload
        storage := some (.saved (s.transactions ++ [newTransaction form now])) } := by
  simp [addTransaction, h, init, saveTransactions, loadTransactions]

/-- `deleteTransaction` filters, saves, and reloads the saved sequence. -/
theorem deleteTransaction_ok (jsonParse : JsonParse) (id : Nat) (s : State) :
    deleteTransaction jsonParse id s = .ok
      { s with
        transactions := (s.transactions.filter (fun t => t.id ≠ id)).map jsonReload
        storage := some (.saved (s.transactions.filter (fun t => t.id ≠ id))) } := by
  simp [deleteTransaction, init, saveTransactions, loadTransactions]

/-- Every ledger reachable from the empty one is left unchanged by a save and reload. -/
theorem reachable_reloaded (jsonParse : JsonParse) (allowed : JSNum → Prop) (s : State)
    (h : Reachable jsonParse allowed s) : Reloaded s.transactions := by
  induction h with
  | start => intro t ht; simp [State.empty] at ht
  | @add s s2 form now _ _ hadd ih =>
    by_cases hcat : form.category = "Custom"
    · simp only [addTransaction, hcat, if_true, Except.ok.injEq] at hadd
      subst hadd
      exact ih
    · rw [addTransaction_ok jsonParse form now s hcat, Except.ok.injEq] at hadd
      subst hadd
      exact reloaded_map _
  | @delete s s2 id _ hdel ih =>
    rw [deleteTransaction_ok, Except.ok.injEq] at hdel
    subst hdel
    exact reloaded_map _

/-- The record built from a finite amount greater than zero comes back from the reload as
it was. -/
theorem jsonReload_newTransaction (form : Form) (now : Nat)
    (hfin : JSNum.isFinite form.amount = true) (hpos : JSNum.gtZero form.amount = true) :
    jsonReload (newTransaction form now) = newTransaction form now := by
  cases hx : form.amount with
  | nan => simp [hx, JSNum.isFinite] at hfin
  | inf s => simp [hx, JSNum.isFinite] at hfin
  | fin s m =>
    cases s with
    | true => simp [hx, JSNum.gtZero] at hpos
    | false =>
      have hm : m ≠ 0 := by simpa [hx, JSNum.gtZero] using hpos
      by_cases hty : form.type = "Expense"
      · simp [jsonReload, newTransaction, JSVal.jsonRoundTrip, hx, hty, JSNum.neg, hm]
      · simp [jsonReload, newTransaction, JSVal.jsonRoundTrip, hx, hty]

/-! ## C1: totals -/

/-- C1. The totals computed by `updateValues` are the sum of the Income amounts, the
absolute value of the sum of the Expense amounts, and the difference of the two (sums taken
left to right, as Numbers); the ledger built from the empty one by adding Income 5000 and
then Expense 2000 has totals income 5000, expense 2000, balance 3000. -/
theorem C1_updateValues_totals :
    (∀ ts : List Transaction, updateValues ts = Spec.totals ts) ∧
    (∀ ts : List Transaction,
      (updateValues ts).balance = JSNum.sub (updateValues ts).income (updateValues ts).expense) ∧
    (∀ (jsonParse : JsonParse) (now1 now2 : Nat),
      (addTransaction jsonParse ⟨JSNum.ofInt 5000, "Salary", "Income", "2024-01-01", ""⟩
          now1 State.empty >>=
        addTransaction jsonParse ⟨JSNum.ofInt 2000, "Rent", "Expense", "2024-01-02", ""⟩
          now2).map (fun s => updateValues s.transactions) =
        .ok ⟨JSNum.ofInt 5000, JSNum.ofInt 2000, JSNum.ofInt 3000⟩) := by
  refine ⟨fun ts => ?_, fun ts => rfl, fun jsonParse now1 now2 => ?_⟩
  · simp only [updateValues, Spec.totals, Spec.sum, Spec.sumFrom_map_amount]
  · rw [addTransaction_ok _ _ _ _ (by decide)]
    simp only [bind, Except.bind]
    rw [addTransaction_ok _ _ _ _ (by decide)]
    have h1 : jsonReload (newTransaction
        ⟨JSNum.ofInt 5000, "Salary", "Income", "2024-01-01", ""⟩ now1) =
        newTransaction ⟨JSNum.ofInt 5000, "Salary", "Income", "2024-01-01", ""⟩ now1 :=
      jsonReload_newTransaction _ _ (by decide) (by decide)
    have h2 : jsonReload (newTransaction
        ⟨JSNum.ofInt 2000, "Rent", "Expense", "2024-01-02", ""⟩ now2) =
        newTransaction ⟨JSNum.ofInt 2000, "Rent", "Expense", "2024-01-02", ""⟩ now2 :=
      jsonReload_newTransaction _ _ (by decide) (by decide)
    simp only [Except.map, State.empty, List.nil_append, List.map_cons, List.map_nil,
      List.cons_append, h1, h2, jsonReload_idem]
    simp only [updateValues, newTransaction]
    simp
    decide

/-! ## C2, C3: the sign of the stored amount -/

/-- Negating a Number greater than zero gives a negative one. -/
theorem JSNum.ltZero_neg_of_gtZero (x : JSNum) (h : JSNum.gtZero x = true) :
    JSNum.ltZero (JSNum.neg x) = true ∧ JSNum.ltZero x = false := by
  cases x with
  | nan => simp [JSNum.gtZero] at h
  | inf s => cases s <;> simp_all [JSNum.gtZero, JSNum.ltZero, JSNum.neg]
  | fin s m => cases s <;> simp_all [JSNum.gtZero, JSNum.ltZero, JSNum.neg]

/-- C2 (as stated, refuted). The amount `Infinity` is greater than zero; submitted as an
Expense to the empty ledger it is pushed as `-Infinity`, saved as `null` and reloaded, so
the stored amount is `null`, not `-X`. -/
theorem C2_counterexample :
    JSNum.gtZero Example.infiniteExpense.amount = true ∧
    Example.infiniteExpense.category ≠ "Custom" ∧
    addTransaction Example.rejectAll Example.infiniteExpense 1704153600000 State.empty =
      .ok ⟨[⟨1704153600000, "Expense", "Rent", .null, "2024-01-02", ""⟩],
        some (.saved
          [⟨1704153600000, "Expense", "Rent", .num (JSNum.inf true), "2024-01-02", ""⟩]),
        [], []⟩ ∧
    (JSVal.null : JSVal) ≠ .num (JSNum.neg Example.infiniteExpense.amount) := by
  refine ⟨by decide, by decide, rfl, by decide⟩

/-- C2 (amended). For every ledger and every finite submitted amount `X > 0` with a
category other than `Custom`, `addTransaction` succeeds and leaves the earlier records as
the reload returns them (unchanged, when the ledger is one that a save and reload leave
unchanged) followed by exactly one new transaction at the end of the sequence; its stored
amount is `-X` (a negative Number) when the type is Expense and `X` when the type is
Income. -/
theorem C2_addTransaction_appends (jsonParse : JsonParse) (form : Form) (now : Nat)
    (s : State) (hcat : form.category ≠ "Custom")
    (hfin : JSNum.isFinite form.amount = true) (hpos : JSNum.gtZero form.amount = true) :
    ∃ s2 t, addTransaction jsonParse form now s = .ok s2 ∧
      s2.transactions = s.transactions.map jsonReload ++ [t] ∧
      (Reloaded s.transactions → s2.transactions = s.transactions ++ [t]) ∧
      t.id = now ∧ t.type = form.type ∧ t.category = form.category ∧
      t.date = form.date ∧ t.note = form.note ∧
      (form.type = "Expense" →
        t.amount = .num (JSNum.neg form.amount) ∧ JSNum.ltZero t.amount.toNumber = true) ∧
      (form.type = "Income" → t.amount = .num form.amount) := by
  have hre := jsonReload_newTransaction form now hfin hpos
  have htr : (s.transactions ++ [newTransaction form now]).map jsonReload =
      s.transactions.map jsonReload ++ [newTransaction form now] := by
    rw [List.map_append, List.map_singleton, hre]
  refine ⟨_, newTransaction form now, addTransaction_ok jsonParse form now s hcat, htr,
    fun hw => ?_, rfl, rfl, rfl, rfl, rfl, fun h => ?_, fun h => ?_⟩
  · show (s.transactions ++ [newTransaction form now]).map jsonReload = _
    rw [htr, map_jsonReload_of_reloaded hw]
  · simp [newTransaction, h, JSVal.toNumber, (JSNum.ltZero_neg_of_gtZero _ hpos).1]
  · simp [newTransaction, h]

theorem C2_addTransaction_appends_witness :
    ∃ s2 t, addTransaction Example.rejectAll Example.rent 1704153600000 State.empty = .ok s2 ∧
      s2.transactions = State.empty.transactions.map jsonReload ++ [t] ∧
      (Reloaded State.empty.transactions →
        s2.transactions = State.empty.transactions ++ [t]) ∧
      t.id = 1704153600000 ∧ t.type = Example.rent.type ∧
      t.category = Example.rent.category ∧
      t.date = Example.rent.date ∧ t.note = Example.rent.note ∧
      (Example.rent.type = "Expense" →
        t.amount = .num (JSNum.neg Example.rent.amount) ∧
          JSNum.ltZero t.amount.toNumber = true) ∧
      (Example.rent.type = "Income" → t.amount = .num Example.rent.amount) :=
  C2_addTransaction_appends Example.rejectAll Example.rent 1704153600000 State.empty
    (by decide) (by decide) (by decide)

/-- C3 (as stated, refuted). With arbitrary submitted amounts the sign of a stored amount
need not match the type: submitting Income with amount `-5` to the empty ledger stores a
negative Income amount, and submitting Expense with amount `Infinity` stores `null`, which
is not negative. -/
theorem C3_counterexample :
    Reachable Example.rejectAll (fun _ => True)
      ⟨[⟨1704067200000, "Income", "Salary", .num (JSNum.ofInt (-5)), "2024-01-01", ""⟩],
        some (.saved
          [⟨1704067200000, "Income", "Salary", .num (JSNum.ofInt (-5)), "2024-01-01", ""⟩]),
        [], []⟩ ∧
    JSNum.ltZero (JSVal.num (JSNum.ofInt (-5))).toNumber = true ∧ "Income" ≠ "Expense" ∧
    Reachable Example.rejectAll (fun _ => True)
      ⟨[⟨1704153600000, "Expense", "Rent", .null, "2024-01-02", ""⟩],
        some (.saved
          [⟨1704153600000, "Expense", "Rent", .num (JSNum.inf true), "2024-01-02", ""⟩]),
        [], []⟩ ∧
    JSNum.ltZero JSVal.null.toNumber = false := by
  refine ⟨?_, by decide, by decide, ?_, by decide⟩
  · exact Reachable.add Example.negativeIncome 1704067200000 Reachable.start trivial rfl
  · exact Reachable.add Example.infiniteExpense 1704153600000 Reachable.start trivial rfl

/-- C3 (amended). In every ledger reachable from the empty ledger by `addTransaction` and
`deleteTransaction` where every submitted amount is a finite Number greater than zero,
each stored transaction's amount is negative if and only if its type is Expense. -/
theorem C3_sign_matches_type (jsonParse : JsonParse) (s : State)
    (h : Reachable jsonParse
      (fun x => JSNum.isFinite x = true ∧ JSNum.gtZero x = true) s) :
    ∀ t ∈ s.transactions, (JSNum.ltZero t.amount.toNumber = true ↔ t.type = "Expense") := by
  induction h with
  | start => simp [State.empty]
  | @add s s2 form now hreach hallowed hadd ih =>
    by_cases hcat : form.category = "Custom"
    · simp only [addTransaction, hcat, if_true, Except.ok.injEq] at hadd
      subst hadd
      exact ih
    · rw [addTransaction_ok jsonParse form now s hcat, Except.ok.injEq] at hadd
      subst hadd
      intro t ht
      have hold := map_jsonReload_of_reloaded (reachable_reloaded _ _ _ hreach)
      have hnew := jsonReload_newTransaction form now hallowed.1 hallowed.2
      simp only [List.map_append, List.map_singleton, hold, hnew, List.mem_append,
        List.mem_singleton] at ht
      rcases ht with ht | rfl
      · exact ih t ht
      · have hs := JSNum.ltZero_neg_of_gtZero _ hallowed.2
        by_cases hty : form.type = "Expense"
        · simp [newTransaction, JSVal.toNumber, hty, hs.1]
        · simp [newTransaction, JSVal.toNumber, hty, hs.2]
  | @delete s s2 id hreach hdel ih =>
    rw [deleteTransaction_ok, Except.ok.injEq] at hdel
    subst hdel
    intro t ht
    have hold : Reloaded (s.transactions.filter (fun t => t.id ≠ id)) :=
      fun u hu => reachable_reloaded _ _ _ hreach u (List.mem_of_mem_filter hu)
    simp only [map_jsonReload_of_reloaded hold] at ht
    exact ih t (List.mem_of_mem_filter ht)

theorem C3_sign_matches_type_witness :
    JSNum.ltZero (JSVal.num (JSNum.neg (JSNum.ofInt 2000))).toNumber = true ↔
      "Expense" = "Expense" :=
  C3_sign_matches_type Example.rejectAll
    ⟨[⟨1704153600000, "Expense", "Rent", .num (JSNum.neg (JSNum.ofInt 2000)),
        "2024-01-02", ""⟩],
      some (.saved
        [⟨1704153600000, "Expense", "Rent", .num (JSNum.neg (JSNum.ofInt 2000)),
          "2024-01-02", ""⟩]),
      [], []⟩
    (Reachable.add Example.rent 1704153600000 Reachable.start (by decide) rfl)
    ⟨1704153600000, "Expense", "Rent", .num (JSNum.neg (JSNum.ofInt 2000)), "2024-01-02", ""⟩
    (List.mem_singleton.mpr rfl)

/-! ## C4: ids -/

/-- C4 (the code at the failing input). Two submissions that read the same clock value
store two transactions with the same id: the ledger below is reachable from the empty
ledger and its ids are not pairwise distinct. -/
theorem C4_duplicate_ids :
    Reachable Example.rejectAll (fun _ => True)
      ⟨[⟨1704067200000, "Income", "Salary", .num (JSNum.ofInt 5000), "2024-01-01", ""⟩,
        ⟨1704067200000, "Expense", "Rent", .num (JSNum.neg (JSNum.ofInt 2000)),
          "2024-01-02", ""⟩],
        some (.saved
          [⟨1704067200000, "Income", "Salary", .num (JSNum.ofInt 5000), "2024-01-01", ""⟩,
           ⟨1704067200000, "Expense", "Rent", .num (JSNum.neg (JSNum.ofInt 2000)),
             "2024-01-02", ""⟩]),
        [], []⟩ ∧
    ¬ ([⟨1704067200000, "Income", "Salary", .num (JSNum.ofInt 5000), "2024-01-01", ""⟩,
        ⟨1704067200000, "Expense", "Rent", .num (JSNum.neg (JSNum.ofInt 2000)),
          "2024-01-02", ""⟩].map Transaction.id).Nodup := by
  refine ⟨?_, by decide⟩
  exact Reachable.add Example.rent 1704067200000
    (Reachable.add Example.salary 1704067200000 Reachable.start trivial rfl) trivial rfl

/-! ## C5: loading -/

/-- C5 (as stated, refuted). When the storage slot holds a text that `JSON.parse` rejects,
`loadTransactions` raises the parser's error instead of setting the empty sequence. -/
theorem C5_counterexample :
    Example.rejectAll "\x7b" = .error "SyntaxError" ∧
    loadTransactions Example.rejectAll Example.corruptStorage = .error "SyntaxError" ∧
    loadTransactions Example.rejectAll Example.corruptStorage ≠
      .ok { Example.corruptStorage with transactions := [] } := by
  refine ⟨rfl, rfl, fun h => ?_⟩
  have h2 : loadTransactions Example.rejectAll Example.corruptStorage =
      .error "SyntaxError" := rfl
  rw [h2] at h
  cases h

/-- C5 (amended). `loadTransactions` sets the transaction sequence to the empty sequence
when the storage slot holds nothing or the empty text, raising no error; for every other
stored text that fails to deserialize it raises the parser's error and assigns nothing. -/
theorem C5_loadTransactions (jsonParse : JsonParse) (s : State) :
    (s.storage = none ∨ s.storage = some (.text "") →
      loadTransactions jsonParse s = .ok { s with transactions := [] }) ∧
    (∀ raw e, s.storage = some (.text raw) → raw ≠ "" → jsonParse raw = .error e →
      loadTransactions jsonParse s = .error e) := by
  refine ⟨fun h => ?_, fun raw e hs hne he => ?_⟩
  · rcases h with h | h <;> simp [loadTransactions, h]
  · simp [loadTransactions, hs, hne, he]

theorem C5_loadTransactions_witness :
    loadTransactions Example.rejectAll State.empty =
      .ok { State.empty with transactions := [] } ∧
    loadTransactions Example.rejectAll Example.corruptStorage = .error "SyntaxError" :=
  ⟨(C5_loadTransactions Example.rejectAll State.empty).1 (Or.inl rfl),
   (C5_loadTransactions Example.rejectAll Example.corruptStorage).2 "\x7b" "SyntaxError"
      rfl (by decide) rfl⟩

/-! ## C7: deletion -/

/-- C7. For every ledger and every id, `deleteTransaction` raises no error and leaves
exactly the transactions whose id differs from the given id, in their original order, as
the reload returns them.  On every ledger that a save and reload leave unchanged (every
ledger the script has loaded from its own save) the result is exactly those transactions,
and when no transaction carries the id the sequence is unchanged. -/
theorem C7_deleteTransaction (jsonParse : JsonParse) (id : Nat) (s : State) :
    ∃ s2, deleteTransaction jsonParse id s = .ok s2 ∧
      s2.transactions = (s.transactions.filter (fun t => t.id ≠ id)).map jsonReload ∧
      (Reloaded s.transactions →
        s2.transactions = s.transactions.filter (fun t => t.id ≠ id) ∧
        s2.transactions.Sublist s.transactions ∧
        ((∀ t ∈ s.transactions, t.id ≠ id) → s2.transactions = s.transactions)) := by
  refine ⟨_, deleteTransaction_ok jsonParse id s, rfl, fun hw => ?_⟩
  have hf : Reloaded (s.transactions.filter (fun t => t.id ≠ id)) :=
    fun u hu => hw u (List.mem_of_mem_filter hu)
  have heq : (s.transactions.filter (fun t => t.id ≠ id)).map jsonReload =
      s.transactions.filter (fun t => t.id ≠ id) := map_jsonReload_of_reloaded hf
  refine ⟨heq, ?_, fun h => ?_⟩
  · show ((s.transactions.filter (fun t => t.id ≠ id)).map jsonReload).Sublist _
    rw [heq]
    exact List.filter_sublist _
  · show (s.transactions.filter (fun t => t.id ≠ id)).map jsonReload = _
    rw [heq]
    simpa using h

theorem C7_deleteTransaction_witness :
    ∃ s2, deleteTransaction Example.rejectAll 7
        ⟨Example.scenarioLedger, none, [], []⟩ = .ok s2 ∧
      s2.transactions = Example.scenarioLedger := by
  obtain ⟨s2, h1, _, h3⟩ := C7_deleteTransaction Example.rejectAll 7
    ⟨Example.scenarioLedger, none, [], []⟩
  have hw : Reloaded Example.scenarioLedger := by unfold Reloaded; decide
  exact ⟨s2, h1, (h3 hw).2.2 (by decide)⟩
/-! ## C6: sums without rounding -/

namespace JSNum

/-- A number below `2^k` has at most `k` binary digits. -/
theorem bitLenAux_le (fuel : Nat) : ∀ n k : Nat, n < 2 ^ k → bitLenAux fuel n ≤ k := by
  induction fuel with
  | zero => intro n k _; simp [bitLenAux]
  | succ fuel ih =>
    intro n k h
    unfold bitLenAux
    split
    · exact Nat.zero_le _
    · rename_i hn
      cases k with
      | zero => simp at h; exact absurd h hn
      | succ k =>
        have : n / 2 < 2 ^ k := by
          rw [Nat.div_lt_iff_lt_mul (by norm_num)]
          rw [pow_succ] at h
          exact h
        exact Nat.succ_le_succ (ih _ _ this)

/-- A number below `2^k` has at most `k` binary digits. -/
theorem bitLen_le {n k : Nat} (h : n < 2 ^ k) : bitLen n ≤ k := bitLenAux_le n n k h

/-- A multiple of `2^e` below `2^(e+53)` is a double: rounding leaves it unchanged. -/
theorem roundMag_exact {e n : Nat} (hdvd : 2 ^ e ∣ n) (hlt : n < 2 ^ (e + 53)) :
    roundMag n 1 = n := by
  have hb : bitLen n ≤ e + 53 := bitLen_le hlt
  have hsh : bitLen n - 53 ≤ e := by omega
  have hd : 2 ^ (bitLen n - 53) ∣ n := dvd_trans (pow_dvd_pow 2 hsh) hdvd
  have hpos : 0 < 2 ^ (bitLen n - 53) := by positivity
  have hr : n % 2 ^ (bitLen n - 53) = 0 := Nat.mod_eq_zero_of_dvd hd
  simp only [roundMag, Nat.div_one, one_mul, hr, mul_zero]
  rw [if_neg]
  · exact Nat.div_mul_cancel hd
  · rintro (h | ⟨h, _⟩)
    · exact absurd h (by omega)
    · omega

/-- The exact value of `ofUnits x` is `x`. -/
theorem signed_ofUnits (x : Int) : signed (decide (x < 0)) x.natAbs = x := by
  unfold signed
  by_cases h : x < 0
  · rw [decide_eq_true h, if_pos rfl]; omega
  · rw [decide_eq_false h, if_neg (by decide)]; omega

/-- Addition is exact when the exact sum is a multiple of `2^e` below `2^(e+53)` and below
the overflow limit. -/
theorem add_ofUnits {e : Nat} (x : Int) (t : Bool) (m : Nat)
    (hdvd : 2 ^ e ∣ (x + signed t m).natAbs)
    (hlt : (x + signed t m).natAbs < 2 ^ (e + 53))
    (hov : (x + signed t m).natAbs < overflowLimit) :
    add (ofUnits x) (fin t m) = ofUnits (x + signed t m) := by
  simp only [ofUnits, add, signed_ofUnits]
  by_cases hz : x + signed t m = 0
  · rw [if_pos hz, hz]
    have : (decide (x < 0) && t) = false := by
      cases t with
      | false => simp
      | true =>
        simp only [Bool.and_true, decide_eq_false_iff_not, not_lt]
        simp only [signed, if_true] at hz
        omega
    simp [this]
  · rw [if_neg hz, roundMag_exact hdvd hlt, ofRounded, if_neg (Nat.not_le.mpr hov)]

/-- The magnitude of a sum is at most the sum of the magnitudes. -/
theorem natAbs_signed_le (x : Int) (s : Bool) (m : Nat) :
    (x + signed s m).natAbs ≤ x.natAbs + m := by
  unfold signed
  cases s <;> simp <;> omega

/-- A signed magnitude is divisible by what divides the magnitude. -/
theorem dvd_signed {e : Nat} (s : Bool) (m : Nat) (h : 2 ^ e ∣ m) :
    ((2 ^ e : Nat) : Int) ∣ signed s m := by
  unfold signed
  cases s
  · simpa using Int.natCast_dvd_natCast.mpr h
  · simpa using (Int.dvd_neg.mpr (Int.natCast_dvd_natCast.mpr h))

/-- The `reduce` over a ledger whose sums need no rounding computes the exact sum. -/
theorem foldl_add_exact {e : Nat} :
    ∀ (ts : List Transaction) (x : Int),
      (∀ t ∈ ts, isFinite t.amount.toNumber = true ∧ 2 ^ e ∣ mag t.amount.toNumber) →
      ((2 ^ e : Nat) : Int) ∣ x → x.natAbs + ledgerMag ts < 2 ^ (e + 53) →
      x.natAbs + ledgerMag ts < overflowLimit →
      ts.foldl (fun acc t => add acc t.amount.toNumber) (ofUnits x) =
        ofUnits (x + ledgerUnits ts) := by
  intro ts
  induction ts with
  | nil => intro x _ _ _ _; simp [ledgerUnits]
  | cons t ts ih =>
    intro x hall hx hlt hov
    obtain ⟨hfin, hdvd⟩ := hall t (List.mem_cons_self _ _)
    cases hamt : t.amount.toNumber with
    | nan => simp [hamt, isFinite] at hfin
    | inf s => simp [hamt, isFinite] at hfin
    | fin s m =>
      simp only [hamt, mag] at hdvd
      have hM : ledgerMag (t :: ts) = m + ledgerMag ts := by simp [ledgerMag, hamt, mag]
      have hU : ledgerUnits (t :: ts) = signed s m + ledgerUnits ts := by
        simp [ledgerUnits, hamt, units]
      have hle := natAbs_signed_le x s m
      have hd : ((2 ^ e : Nat) : Int) ∣ x + signed s m := dvd_add hx (dvd_signed s m hdvd)
      rw [List.foldl_cons, hamt,
        add_ofUnits x s m (Int.natCast_dvd.mp hd) (by omega) (by omega),
        ih (x + signed s m) (fun u hu => hall u (List.mem_cons_of_mem _ hu)) hd (by omega)
          (by omega),
        hU, add_assoc]

end JSNum

/-- Filtering a ledger does not increase the sum of the magnitudes. -/
theorem ledgerMag_filter_le (p : Transaction → Bool) (ts : List Transaction) :
    ledgerMag (ts.filter p) ≤ ledgerMag ts := by
  induction ts with
  | nil => simp
  | cons t ts ih =>
    by_cases h : p t = true
    · simp only [List.filter_cons_of_pos h]
      simp only [ledgerMag, List.map_cons, List.sum_cons] at ih ⊢
      omega
    · simp only [List.filter_cons_of_neg h]
      simp only [ledgerMag, List.map_cons, List.sum_cons] at ih ⊢
      omega

/-- The magnitude of the exact sum is at most the sum of the magnitudes. -/
theorem natAbs_ledgerUnits_le (ts : List Transaction) :
    (ledgerUnits ts).natAbs ≤ ledgerMag ts := by
  induction ts with
  | nil => simp [ledgerUnits, ledgerMag]
  | cons t ts ih =>
    simp only [ledgerUnits, ledgerMag, List.map_cons, List.sum_cons] at ih ⊢
    have : (JSNum.units t.amount.toNumber).natAbs ≤ JSNum.mag t.amount.toNumber := by
      cases t.amount.toNumber with
      | nan => simp [JSNum.units]
      | inf s => simp [JSNum.units]
      | fin s m => cases s <;> simp [JSNum.units, JSNum.mag, JSNum.signed]
    omega

/-- The exact sum of multiples of `2^e` is a multiple of `2^e`. -/
theorem dvd_ledgerUnits {e : Nat} (ts : List Transaction)
    (h : ∀ t ∈ ts, JSNum.isFinite t.amount.toNumber = true ∧
      2 ^ e ∣ JSNum.mag t.amount.toNumber) :
    ((2 ^ e : Nat) : Int) ∣ ledgerUnits ts := by
  induction ts with
  | nil => simp [ledgerUnits]
  | cons t ts ih =>
    simp only [ledgerUnits, List.map_cons, List.sum_cons]
    refine dvd_add ?_ (ih (fun u hu => h u (List.mem_cons_of_mem _ hu)))
    obtain ⟨hfin, hdvd⟩ := h t (List.mem_cons_self _ _)
    cases hamt : t.amount.toNumber with
    | nan => simp [hamt, JSNum.isFinite] at hfin
    | inf s => simp [hamt, JSNum.isFinite] at hfin
    | fin s m =>
      simp only [hamt, JSNum.mag] at hdvd
      exact JSNum.dvd_signed s m hdvd

/-- When every type is Income or Expense, the exact sum splits into the Income part and the Expense part. -/
theorem ledgerUnits_split (ts : List Transaction)
    (h : ∀ t ∈ ts, t.type = "Income" ∨ t.type = "Expense") :
    ledgerUnits ts = ledgerUnits (ts.filter (fun t => t.type = "Income")) +
      ledgerUnits (ts.filter (fun t => t.type = "Expense")) := by
  induction ts with
  | nil => simp [ledgerUnits]
  | cons t ts ih =>
    have ih2 := ih (fun u hu => h u (List.mem_cons_of_mem _ hu))
    rcases h t (List.mem_cons_self _ _) with ht | ht
    · have hne : ¬ t.type = "Expense" := by rw [ht]; decide
      rw [List.filter_cons_of_pos (by simpa using ht),
        List.filter_cons_of_neg (by simpa using hne)]
      simp only [ledgerUnits, List.map_cons, List.sum_cons] at ih2 ⊢
      omega
    · have hne : ¬ t.type = "Income" := by rw [ht]; decide
      rw [List.filter_cons_of_neg (by simpa using hne),
        List.filter_cons_of_pos (by simpa using ht)]
      simp only [ledgerUnits, List.map_cons, List.sum_cons] at ih2 ⊢
      omega

/-- The exact sum of negative amounts is not positive. -/
theorem ledgerUnits_nonpos (ts : List Transaction)
    (h : ∀ t ∈ ts, JSNum.ltZero t.amount.toNumber = true) : ledgerUnits ts ≤ 0 := by
  induction ts with
  | nil => simp [ledgerUnits]
  | cons t ts ih =>
    have ih2 := ih (fun u hu => h u (List.mem_cons_of_mem _ hu))
    have ht := h t (List.mem_cons_self _ _)
    simp only [ledgerUnits, List.map_cons, List.sum_cons] at ih2 ⊢
    have : JSNum.units t.amount.toNumber ≤ 0 := by
      cases hamt : t.amount.toNumber with
      | nan => simp [JSNum.units]
      | inf s => simp [JSNum.units]
      | fin s m =>
        cases s
        · simp [hamt, JSNum.ltZero] at ht
        · simp [JSNum.units, JSNum.signed]
    omega

/-- C6 (as stated, refuted). The ledger Income `0.1`, Expense `-0.3`, Income `0.2` obeys
the sign convention; `updateValues` computes the balance `(0.1 + 0.2) - 0.3`, which is
`5.551115123125783e-17`, while the signed amounts sum to `(0.1 - 0.3) + 0.2`, which is
`2.7755575615628914e-17`. -/
theorem C6_counterexample :
    SignConvention Example.roundingLedger ∧
    (updateValues Example.roundingLedger).balance =
      JSNum.ofDecimal false 5551115123125783 32 ∧
    Spec.sum (Example.roundingLedger.map (fun t => t.amount.toNumber)) =
      JSNum.ofDecimal false 27755575615628914 33 ∧
    (updateValues Example.roundingLedger).balance ≠
      Spec.sum (Example.roundingLedger.map (fun t => t.amount.toNumber)) := by
  refine ⟨?_, by decide, by decide, by decide⟩
  unfold SignConvention
  decide

/-- C6 (amended). For every ledger that satisfies the sign convention and whose sums need
no rounding (every amount a finite multiple of `2^e` units, a unit being `2^(-1074)`, and
the magnitudes adding up to less than `2^(e+53)` units and to less than `2^1024`), the
balance computed by `updateValues` equals the sum of the signed amounts of all
transactions, and its exact value is the exact sum of the amounts. -/
theorem C6_balance_eq_signed_sum (e : Nat) (ts : List Transaction)
    (hsign : SignConvention ts) (hexact : ExactLedger e ts) :
    (updateValues ts).balance = Spec.sum (ts.map (fun t => t.amount.toNumber)) ∧
    JSNum.units (updateValues ts).balance = ledgerUnits ts := by
  obtain ⟨hall, hlt, hov⟩ := hexact
  have hfilter : ∀ p : Transaction → Bool, ∀ t ∈ ts.filter p,
      JSNum.isFinite t.amount.toNumber = true ∧ 2 ^ e ∣ JSNum.mag t.amount.toNumber :=
    fun p t ht => hall t (List.mem_of_mem_filter ht)
  have hzero : JSNum.zero = JSNum.ofUnits 0 := rfl
  have hfI := ledgerMag_filter_le (fun t => t.type = "Income") ts
  have hfE := ledgerMag_filter_le (fun t => t.type = "Expense") ts
  have hInc := JSNum.foldl_add_exact (ts.filter (fun t => t.type = "Income")) 0
    (hfilter _) (dvd_zero _)
    (by rw [Int.natAbs_zero, Nat.zero_add]; exact lt_of_le_of_lt hfI hlt)
    (by rw [Int.natAbs_zero, Nat.zero_add]; exact lt_of_le_of_lt hfI hov)
  have hExp := JSNum.foldl_add_exact (ts.filter (fun t => t.type = "Expense")) 0
    (hfilter _) (dvd_zero _)
    (by rw [Int.natAbs_zero, Nat.zero_add]; exact lt_of_le_of_lt hfE hlt)
    (by rw [Int.natAbs_zero, Nat.zero_add]; exact lt_of_le_of_lt hfE hov)
  have hAll := JSNum.foldl_add_exact ts 0 hall (dvd_zero _)
    (by rw [Int.natAbs_zero, Nat.zero_add]; exact hlt)
    (by rw [Int.natAbs_zero, Nat.zero_add]; exact hov)
  have hsplit := ledgerUnits_split ts (fun t ht => (hsign t ht).imp And.left And.left)
  have hneg : ledgerUnits (ts.filter (fun t => t.type = "Expense")) ≤ 0 := by
    apply ledgerUnits_nonpos
    intro t ht
    have hty : t.type = "Expense" := by simpa using (List.mem_filter.mp ht).2
    rcases hsign t (List.mem_of_mem_filter ht) with ⟨h1, _⟩ | ⟨_, h2⟩
    · rw [hty] at h1; exact absurd h1 (by decide)
    · exact h2
  have hbound := natAbs_ledgerUnits_le ts
  have hdiv := dvd_ledgerUnits ts hall
  have hbal : (updateValues ts).balance = JSNum.ofUnits (ledgerUnits ts) := by
    simp only [updateValues, hzero, hInc, hExp, zero_add]
    set X := ledgerUnits (ts.filter (fun t => t.type = "Income"))
    set Y := ledgerUnits (ts.filter (fun t => t.type = "Expense"))
    have h1 : JSNum.sub (JSNum.ofUnits X) (JSNum.abs (JSNum.ofUnits Y)) =
        JSNum.add (JSNum.ofUnits X) (JSNum.fin true Y.natAbs) := rfl
    have h2 : X + JSNum.signed true Y.natAbs = ledgerUnits ts := by
      simp only [JSNum.signed, if_true]; omega
    rw [h1, JSNum.add_ofUnits X true Y.natAbs
      (by rw [h2]; exact Int.natCast_dvd.mp hdiv)
      (by rw [h2]; exact lt_of_le_of_lt hbound hlt)
      (by rw [h2]; exact lt_of_le_of_lt hbound hov), h2]
  refine ⟨?_, ?_⟩
  · rw [hbal, Spec.sum, Spec.sumFrom_map_amount, hzero, hAll, zero_add]
  · rw [hbal]; exact JSNum.signed_ofUnits _

theorem C6_balance_eq_signed_sum_witness :
    (updateValues Example.scenarioLedger).balance =
      Spec.sum (Example.scenarioLedger.map (fun t => t.amount.toNumber)) ∧
    JSNum.units (updateValues Example.scenarioLedger).balance =
      ledgerUnits Example.scenarioLedger :=
  C6_balance_eq_signed_sum 1074 Example.scenarioLedger
    (by unfold SignConvention; decide) (by unfold ExactLedger; decide)

/-! ## C8: the sort step -/

namespace JSNum

/-- The binary digits of a positive number do not overshoot it: `2^bits ≤ 2 * n`. -/
theorem two_pow_bitLenAux_le (fuel : Nat) : ∀ n : Nat, n ≠ 0 → 2 ^ bitLenAux fuel n ≤ 2 * n := by
  induction fuel with
  | zero => intro n hn; simp [bitLenAux]; omega
  | succ fuel ih =>
    intro n hn
    unfold bitLenAux
    rw [if_neg hn, pow_succ]
    by_cases h2 : n / 2 = 0
    · have : bitLenAux fuel (n / 2) = 0 := by
        rw [h2]; cases fuel <;> simp [bitLenAux]
      rw [this]; omega
    · have := ih (n / 2) h2
      omega

/-- Rounding a positive magnitude gives a positive magnitude. -/
theorem roundMag_pos {n : Nat} (hn : n ≠ 0) : roundMag n 1 ≠ 0 := by
  have h1 : 2 ^ bitLen n ≤ 2 * n := two_pow_bitLenAux_le n n hn
  have hsh : 2 ^ (bitLen n - 53) ≤ n := by
    by_cases hb : bitLen n ≤ 53
    · have : bitLen n - 53 = 0 := by omega
      rw [this]; simp; omega
    · have hle : bitLen n - 53 + 1 ≤ bitLen n := by omega
      have := Nat.pow_le_pow_right (by norm_num : 0 < 2) hle
      rw [pow_succ] at this
      omega
  have hpos : 0 < 2 ^ (bitLen n - 53) := by positivity
  have hq : 0 < n / 2 ^ (bitLen n - 53) := Nat.div_pos hsh hpos
  simp only [roundMag, Nat.div_one, one_mul]
  split
  · exact Nat.ne_of_gt (Nat.mul_pos (by omega) hpos)
  · exact Nat.ne_of_gt (Nat.mul_pos hq hpos)

/-- A rounded positive magnitude is greater than zero exactly when its sign is plus. -/
theorem gtZero_ofRounded (s : Bool) {m : Nat} (hm : m ≠ 0) : gtZero (ofRounded s m) = !s := by
  unfold ofRounded
  split <;> simp [gtZero, hm]

/-- The exact value of the Number built from the integer `a` scaled by `P`. -/
theorem signed_scaled (a : Int) (P : Nat) :
    signed (decide (a < 0)) (a.natAbs * P) = a * (P : Int) := by
  unfold signed
  by_cases h : a < 0
  · have h1 : (a.natAbs : Int) = -a := by omega
    rw [decide_eq_true h, if_pos rfl, Nat.cast_mul, h1, neg_mul, neg_neg]
  · have h1 : (a.natAbs : Int) = a := by omega
    rw [decide_eq_false h, if_neg (by decide), Nat.cast_mul, h1]

/-- The exact value of the negated Number built from the integer `b` scaled by `P`. -/
theorem signed_not_scaled (b : Int) (P : Nat) :
    signed (!decide (b < 0)) (b.natAbs * P) = -(b * (P : Int)) := by
  unfold signed
  by_cases h : b < 0
  · have h1 : (b.natAbs : Int) = -b := by omega
    rw [decide_eq_true h]
    simp only [Bool.not_true, Bool.false_eq_true, if_false]
    rw [Nat.cast_mul, h1, neg_mul]
  · have h1 : (b.natAbs : Int) = b := by omega
    rw [decide_eq_false h]
    simp only [Bool.not_false, if_true]
    rw [Nat.cast_mul, h1]

/-- The difference of two scaled integers is greater than zero exactly when the first is the larger. -/
theorem gtZero_add_scaled (a b : Int) (P : Nat) (hP : 0 < P) :
    gtZero (add (fin (decide (a < 0)) (a.natAbs * P)) (fin (!decide (b < 0)) (b.natAbs * P)))
      = true ↔ b < a := by
  have hz : signed (decide (a < 0)) (a.natAbs * P) +
      signed (!decide (b < 0)) (b.natAbs * P) = (a - b) * (P : Int) := by
    rw [signed_scaled, signed_not_scaled]; ring
  have hpow : (0 : Int) < (P : Int) := by exact_mod_cast hP
  simp only [add, hz]
  by_cases hab : a - b = 0
  · have : (a - b) * (P : Int) = 0 := by rw [hab, zero_mul]
    rw [if_pos this]
    simp [gtZero]; omega
  · have hne : (a - b) * (P : Int) ≠ 0 := mul_ne_zero hab (ne_of_gt hpow)
    rw [if_neg hne, gtZero_ofRounded _ (roundMag_pos (by simpa using hne))]
    simp only [Bool.not_eq_true', decide_eq_false_iff_not, not_lt]
    constructor
    · intro h
      have : 0 ≤ a - b := by
        by_contra hc
        push_neg at hc
        have := mul_neg_of_neg_of_pos hc hpow
        omega
      omega
    · intro h
      exact mul_nonneg (by omega) (le_of_lt hpow)

/-- `ofInt a - ofInt b > 0` exactly when `b < a`: rounding keeps the sign of a difference. -/
theorem gtZero_sub_ofInt (a b : Int) : gtZero (sub (ofInt a) (ofInt b)) = true ↔ b < a :=
  gtZero_add_scaled a b (2 ^ 1074) (Nat.pow_pos (by decide))

end JSNum

/-- Lists with equal images under a map that is injective on their elements are equal. -/
theorem map_eq_of_injOn {α β : Type} (f : α → β) :
    ∀ l1 l2 : List α, (∀ a ∈ l1, ∀ b ∈ l2, f a = f b → a = b) →
      l1.map f = l2.map f → l1 = l2 := by
  intro l1
  induction l1 with
  | nil => intro l2 _ h; cases l2 with
    | nil => rfl
    | cons b l2 => simp at h
  | cons a l1 ih =>
    intro l2 hinj h
    cases l2 with
    | nil => simp at h
    | cons b l2 =>
      simp only [List.map_cons, List.cons.injEq] at h
      have hab := hinj a (List.mem_cons_self _ _) b (List.mem_cons_self _ _) h.1
      rw [hab, ih l2 (fun x hx y hy => hinj x (List.mem_cons_of_mem _ hx) y
        (List.mem_cons_of_mem _ hy)) h.2]

/-- On valid dates the `oldest` comparator keeps `a` before `b` exactly when `a` is not later. -/
theorem compareFn_oldest (parseDate : DateParse) (a b : Transaction)
    (ha : (parseDate a.date).isSome = true) (hb : (parseDate b.date).isSome = true) :
    JSNum.gtZero (compareFn parseDate "oldest" a b) = false ↔
      timeValue parseDate a ≤ timeValue parseDate b := by
  obtain ⟨x, hx⟩ := Option.isSome_iff_exists.mp ha
  obtain ⟨y, hy⟩ := Option.isSome_iff_exists.mp hb
  have h1 : compareFn parseDate "oldest" a b = JSNum.sub (JSNum.ofInt x) (JSNum.ofInt y) := by
    simp [compareFn, dateValue, hx, hy]
  rw [h1, timeValue, timeValue, hx, hy, ← Bool.not_eq_true, JSNum.gtZero_sub_ofInt]
  simp

/-- On valid dates the `newest` comparator keeps `a` before `b` exactly when `a` is not earlier. -/
theorem compareFn_newest (parseDate : DateParse) (a b : Transaction)
    (ha : (parseDate a.date).isSome = true) (hb : (parseDate b.date).isSome = true) :
    JSNum.gtZero (compareFn parseDate "newest" a b) = false ↔
      timeValue parseDate b ≤ timeValue parseDate a := by
  obtain ⟨x, hx⟩ := Option.isSome_iff_exists.mp ha
  obtain ⟨y, hy⟩ := Option.isSome_iff_exists.mp hb
  have h1 : compareFn parseDate "newest" a b = JSNum.sub (JSNum.ofInt y) (JSNum.ofInt x) := by
    simp [compareFn, dateValue, hx, hy]
  rw [h1, timeValue, timeValue, hx, hy, ← Bool.not_eq_true, JSNum.gtZero_sub_ofInt]
  simp

/-- C8. For every transaction list whose dates are valid and pairwise distinct (as time
values), the sort step of `renderTransactionList` under order `newest` produces exactly the
reverse of what it produces under `oldest`; both results are rearrangements of the input,
the `oldest` one ascending by date and the `newest` one descending by date.  They are the
only rearrangements of the input that the comparator accepts as sorted, so every
conforming `sort` produces them. -/
theorem C8_newest_reverse_oldest (parseDate : DateParse) (l : List Transaction)
    (hvalid : ∀ t ∈ l, (parseDate t.date).isSome = true)
    (hdistinct : (l.map (fun t => parseDate t.date)).Nodup) :
    sortedTransactions parseDate "newest" l =
      (sortedTransactions parseDate "oldest" l).reverse ∧
    (sortedTransactions parseDate "oldest" l).Perm l ∧
    (sortedTransactions parseDate "newest" l).Perm l ∧
    (sortedTransactions parseDate "oldest" l).Pairwise
      (fun a b => timeValue parseDate a < timeValue parseDate b) ∧
    (sortedTransactions parseDate "newest" l).Pairwise
      (fun a b => timeValue parseDate b < timeValue parseDate a) ∧
    (∀ out : List Transaction, out.Perm l →
      (out.Pairwise (fun a b => JSNum.gtZero (compareFn parseDate "oldest" a b) = false) →
        out = sortedTransactions parseDate "oldest" l) ∧
      (out.Pairwise (fun a b => JSNum.gtZero (compareFn parseDate "newest" a b) = false) →
        out = sortedTransactions parseDate "newest" l)) := by
  -- the time values are pairwise distinct
  have hkeys : (l.map (timeValue parseDate)).Nodup := by
    have hinj : ∀ a ∈ l.map (fun t => parseDate t.date), ∀ b ∈ l.map (fun t => parseDate t.date),
        a.getD 0 = b.getD 0 → a = b := by
      intro a ha b hb hab
      obtain ⟨t, ht, rfl⟩ := List.mem_map.mp ha
      obtain ⟨u, hu, rfl⟩ := List.mem_map.mp hb
      obtain ⟨x, hx⟩ := Option.isSome_iff_exists.mp (hvalid t ht)
      obtain ⟨y, hy⟩ := Option.isSome_iff_exists.mp (hvalid u hu)
      simp only [hx, hy, Option.getD_some] at hab ⊢
      rw [hab]
    have := List.Nodup.map_on hinj hdistinct
    simpa [List.map_map, Function.comp, timeValue] using this
  have hinjT : ∀ a ∈ l, ∀ b ∈ l, timeValue parseDate a = timeValue parseDate b → a = b :=
    List.inj_on_of_nodup_map hkeys
  -- the two sorts, seen on the time values
  have hold : (sortedTransactions parseDate "oldest" l).map (timeValue parseDate) =
      (l.map (timeValue parseDate)).insertionSort (· ≤ ·) :=
    List.map_insertionSort _ _ (timeValue parseDate) l
      (fun a ha b hb => compareFn_oldest parseDate a b (hvalid a ha) (hvalid b hb))
  have hnew : (sortedTransactions parseDate "newest" l).map (timeValue parseDate) =
      (l.map (timeValue parseDate)).insertionSort (· ≥ ·) :=
    List.map_insertionSort _ _ (timeValue parseDate) l
      (fun a ha b hb => compareFn_newest parseDate a b (hvalid a ha) (hvalid b hb))
  have hpermO : (sortedTransactions parseDate "oldest" l).Perm l := List.perm_insertionSort _ l
  have hpermN : (sortedTransactions parseDate "newest" l).Perm l := List.perm_insertionSort _ l
  have hsortedO : ((l.map (timeValue parseDate)).insertionSort (· ≤ ·)).Sorted (· ≤ ·) :=
    List.sorted_insertionSort _ _
  have hsortedN : ((l.map (timeValue parseDate)).insertionSort (· ≥ ·)).Sorted (· ≥ ·) :=
    List.sorted_insertionSort _ _
  have hndO : ((l.map (timeValue parseDate)).insertionSort (· ≤ ·)).Nodup :=
    (List.perm_insertionSort _ _).nodup_iff.mpr hkeys
  have hndN : ((l.map (timeValue parseDate)).insertionSort (· ≥ ·)).Nodup :=
    (List.perm_insertionSort _ _).nodup_iff.mpr hkeys
  have hkeyEq : (l.map (timeValue parseDate)).insertionSort (· ≥ ·) =
      ((l.map (timeValue parseDate)).insertionSort (· ≤ ·)).reverse := by
    apply List.eq_of_perm_of_sorted _ hsortedN
    · have : ((l.map (timeValue parseDate)).insertionSort (· ≤ ·)).reverse.Sorted (· ≥ ·) :=
        List.pairwise_reverse.mpr hsortedO
      exact this
    · exact (List.perm_insertionSort _ _).trans
        ((List.reverse_perm _).trans (List.perm_insertionSort _ _)).symm
  refine ⟨?_, hpermO, hpermN, ?_, ?_, fun out hperm => ⟨fun hs => ?_, fun hs => ?_⟩⟩
  · apply map_eq_of_injOn (timeValue parseDate)
    · intro a ha b hb
      exact hinjT a (hpermN.mem_iff.mp ha) b
        (hpermO.mem_iff.mp (List.mem_reverse.mp hb))
    · rw [hnew, List.map_reverse, hold, hkeyEq]
  · have h := List.Sorted.lt_of_le hsortedO hndO
    rw [← hold] at h
    exact List.pairwise_map.mp h
  · have h := List.Sorted.gt_of_ge hsortedN hndN
    rw [← hnew] at h
    exact List.pairwise_map.mp h
  -- every other sorted rearrangement of the input is the same list
  · apply map_eq_of_injOn (timeValue parseDate)
    · intro a ha b hb
      exact hinjT a (hperm.mem_iff.mp ha) b (hpermO.mem_iff.mp hb)
    · rw [hold]
      refine List.eq_of_perm_of_sorted ((hperm.map _).trans (List.perm_insertionSort _ _).symm)
        ?_ hsortedO
      refine List.pairwise_map.mpr (hs.imp_of_mem ?_)
      intro a b ha hb hab
      exact (compareFn_oldest parseDate a b (hvalid a (hperm.mem_iff.mp ha))
        (hvalid b (hperm.mem_iff.mp hb))).mp hab
  · apply map_eq_of_injOn (timeValue parseDate)
    · intro a ha b hb
      exact hinjT a (hperm.mem_iff.mp ha) b (hpermN.mem_iff.mp hb)
    · rw [hnew]
      refine List.eq_of_perm_of_sorted ((hperm.map _).trans (List.perm_insertionSort _ _).symm)
        ?_ hsortedN
      refine List.pairwise_map.mpr (hs.imp_of_mem ?_)
      intro a b ha hb hab
      exact (compareFn_newest parseDate a b (hvalid a (hperm.mem_iff.mp ha))
        (hvalid b (hperm.mem_iff.mp hb))).mp hab

theorem C8_newest_reverse_oldest_witness :
    sortedTransactions Example.parseDay "newest" Example.scenarioLedger =
      (sortedTransactions Example.parseDay "oldest" Example.scenarioLedger).reverse ∧
    (sortedTransactions Example.parseDay "oldest" Example.scenarioLedger).Perm
      Example.scenarioLedger ∧
    (sortedTransactions Example.parseDay "newest" Example.scenarioLedger).Perm
      Example.scenarioLedger ∧
    (sortedTransactions Example.parseDay "oldest" Example.scenarioLedger).Pairwise
      (fun a b => timeValue Example.parseDay a < timeValue Example.parseDay b) ∧
    (sortedTransactions Example.parseDay "newest" Example.scenarioLedger).Pairwise
      (fun a b => timeValue Example.parseDay b < timeValue Example.parseDay a) :=
  have h := C8_newest_reverse_oldest Example.parseDay Example.scenarioLedger
    (by decide) (by decide)
  ⟨h.1, h.2.1, h.2.2.1, h.2.2.2.1, h.2.2.2.2.1⟩

/-! ## C9: the CSV text -/

/-- The accumulator of `Nat.toDigitsCore` is a suffix of its result. -/
theorem toDigitsCore_acc (fuel : Nat) : ∀ (n : Nat) (ds : List Char),
    Nat.toDigitsCore 10 fuel n ds = Nat.toDigitsCore 10 fuel n [] ++ ds := by
  induction fuel with
  | zero => intro n ds; simp [Nat.toDigitsCore]
  | succ fuel ih =>
    intro n ds
    simp only [Nat.toDigitsCore]
    split
    · simp
    · rw [ih (n / 10) (Nat.digitChar (n % 10) :: ds), ih (n / 10) [Nat.digitChar (n % 10)]]
      simp

/-- `Nat.toDigitsCore` does not depend on the fuel once it exceeds the number. -/
theorem toDigitsCore_fuel (fuel : Nat) : ∀ (fuel2 n : Nat), n < fuel → n < fuel2 →
    Nat.toDigitsCore 10 fuel n [] = Nat.toDigitsCore 10 fuel2 n [] := by
  induction fuel with
  | zero => intro fuel2 n h; omega
  | succ fuel ih =>
    intro fuel2 n h h2
    cases fuel2 with
    | zero => omega
    | succ fuel2 =>
      simp only [Nat.toDigitsCore]
      split
      · rfl
      · rename_i hn
        rw [toDigitsCore_acc fuel, toDigitsCore_acc fuel2,
          ih fuel2 (n / 10) (by omega) (by omega)]

/-- A number below ten has one decimal digit. -/
theorem toDigits_lt_ten {n : Nat} (h : n < 10) : Nat.toDigits 10 n = [Nat.digitChar n] := by
  have h0 : n / 10 = 0 := by omega
  have h1 : n % 10 = n := by omega
  simp [Nat.toDigits, Nat.toDigitsCore, h0, h1]

/-- The decimal digits of `n` are those of `n / 10` followed by the last digit. -/
theorem toDigits_step {n : Nat} (h : 10 ≤ n) :
    Nat.toDigits 10 n = Nat.toDigits 10 (n / 10) ++ [Nat.digitChar (n % 10)] := by
  have h0 : n / 10 ≠ 0 := by omega
  have h1 : Nat.toDigitsCore 10 (n + 1) n [] =
      Nat.toDigitsCore 10 n (n / 10) [Nat.digitChar (n % 10)] := by
    simp only [Nat.toDigitsCore, h0, if_false]
  rw [Nat.toDigits, Nat.toDigits, h1, toDigitsCore_acc,
    toDigitsCore_fuel n (n / 10 + 1) (n / 10) (by omega) (by omega)]

/-- Every number has at least one decimal digit. -/
theorem toDigits_length_pos (n : Nat) : 0 < (Nat.toDigits 10 n).length := by
  by_cases h : n < 10
  · rw [toDigits_lt_ten h]; simp
  · rw [toDigits_step (by omega)]; simp

/-- The digits of `n` padded to three places are the digits of `n / 100` followed by the last two digits of `n`. -/
theorem fixed_digits (n : Nat) :
    (if (Nat.toDigits 10 n).length ≤ 2
      then List.replicate (3 - (Nat.toDigits 10 n).length) '0' ++ Nat.toDigits 10 n
      else Nat.toDigits 10 n) =
    Nat.toDigits 10 (n / 100) ++ [Nat.digitChar (n / 10 % 10), Nat.digitChar (n % 10)] := by
  by_cases h1 : n < 10
  · have h2 : n / 100 = 0 := by omega
    have h3 : n / 10 % 10 = 0 := by omega
    have h4 : n % 10 = n := by omega
    rw [toDigits_lt_ten h1, h2, h3, h4]
    rfl
  · by_cases h2 : n < 100
    · have h3 : n / 100 = 0 := by omega
      have h4 : n / 10 % 10 = n / 10 := by omega
      rw [toDigits_step (by omega), toDigits_lt_ten (by omega : n / 10 < 10), h3, h4]
      rfl
    · have h3 : n / 10 / 10 = n / 100 := by omega
      have hlen := toDigits_length_pos (n / 100)
      rw [toDigits_step (by omega), toDigits_step (by omega : 10 ≤ n / 10), h3]
      have hlen2 : ¬ ((Nat.toDigits 10 (n / 100) ++ [Nat.digitChar (n / 10 % 10)] ++
          [Nat.digitChar (n % 10)]).length ≤ 2) := by
        simp only [List.length_append, List.length_singleton]
        omega
      rw [if_neg hlen2, List.append_assoc]
      rfl


/-- The characters of `Nat.repr`. -/
theorem repr_toList (k : Nat) : (Nat.repr k).toList = Nat.toDigits 10 k := rfl

/-- `Nat.repr` as a string of digits. -/
theorem repr_eq_mk (k : Nat) : Nat.repr k = String.mk (Nat.toDigits 10 k) := rfl

/-- Splitting the padded digits before the last two gives the whole part and the two decimals. -/
theorem fixed_text (sign : String) (n : Nat) :
    sign ++ String.mk (List.take
      ((if n.repr.toList.length ≤ 2 then List.replicate (3 - n.repr.toList.length) '0' ++ n.repr.toList
          else n.repr.toList).length - 2)
      (if n.repr.toList.length ≤ 2 then List.replicate (3 - n.repr.toList.length) '0' ++ n.repr.toList
          else n.repr.toList)) ++ "." ++
      String.mk (List.drop
      ((if n.repr.toList.length ≤ 2 then List.replicate (3 - n.repr.toList.length) '0' ++ n.repr.toList
          else n.repr.toList).length - 2)
      (if n.repr.toList.length ≤ 2 then List.replicate (3 - n.repr.toList.length) '0' ++ n.repr.toList
          else n.repr.toList)) =
    sign ++ (n / 100).repr ++ "." ++
      String.mk [Nat.digitChar (n / 10 % 10), Nat.digitChar (n % 10)] := by
  have hl : (Nat.toDigits 10 (n / 100) ++
      [Nat.digitChar (n / 10 % 10), Nat.digitChar (n % 10)]).length - 2 =
      (Nat.toDigits 10 (n / 100)).length := by
    rw [List.length_append]; rfl
  rw [repr_toList, fixed_digits n, hl, List.take_left, List.drop_left, repr_eq_mk]

/-- For a finite Number below `10^21`, `toFixed(2)` prints the two-decimal form. -/
theorem toFixed2_eq_fixed2 (x : JSNum) (h : fixedRange (.num x) = true) :
    toFixed2 x = Spec.fixed2 x := by
  cases x with
  | nan => simp [fixedRange] at h
  | inf s => simp [fixedRange] at h
  | fin s m =>
    have h2 : ¬ (fixedLimit ≤ m) := Nat.not_le.mpr (of_decide_eq_true h)
    unfold toFixed2 Spec.fixed2
    simp only [JSNum.mag, JSNum.ltZero]
    rw [if_neg h2]
    exact fixed_text _ _

/-- Joining rows with line breaks puts each row on a line of its own. -/
theorem intercalate_go_lines (acc : String) : ∀ rows : List String,
    String.intercalate.go acc "\n" rows = acc ++ Spec.lines rows := by
  intro rows
  induction rows generalizing acc with
  | nil => simp [String.intercalate.go, Spec.lines]
  | cons r rs ih => simp [String.intercalate.go, Spec.lines, ih, String.append_assoc]

/-- The row of a transaction whose amount is a Number is built without an exception. -/
theorem csvRow_ok (t : Transaction) (h : t.amount ≠ .null) :
    csvRow t = .ok (Spec.exportRow t) := by
  cases hamt : t.amount with
  | null => exact absurd hamt h
  | num x =>
    simp [csvRow, Spec.exportRow, hamt, JSVal.toNumber, String.intercalate,
      String.intercalate.go, stripCommas]

/-- The rows of a ledger whose amounts are all Numbers are built without an exception. -/
theorem csvRows_ok (ts : List Transaction) (h : AllNumbers ts) :
    csvRows ts = .ok (ts.map Spec.exportRow) := by
  induction ts with
  | nil => rfl
  | cons t ts ih =>
    simp only [csvRows, csvRow_ok t (h t (List.mem_cons_self _ _)),
      ih (fun u hu => h u (List.mem_cons_of_mem _ hu)), List.map_cons]

/-- On a non-empty ledger whose amounts are all Numbers, `exportToCsv` shows no notice and
hands over one file with the header row and the rows. -/
theorem exportToCsv_ok (today : String) (s : State) (hne : s.transactions ≠ [])
    (h : AllNumbers s.transactions) :
    exportToCsv today s = .ok { s with downloads := s.downloads ++
      [⟨"finance_tracker_export_" ++ today ++ ".csv", Spec.exportText s.transactions⟩] } := by
  have hlen : s.transactions.length ≠ 0 := by simpa using hne
  simp only [exportToCsv, hlen, if_false, csvRows_ok _ h, String.intercalate,
    intercalate_go_lines, Spec.exportText]
  rfl

/-- An amount in the fixed range is a Number. -/
theorem allNumbers_of_fixedRange (ts : List Transaction)
    (h : ∀ t ∈ ts, fixedRange t.amount = true) : AllNumbers ts := by
  intro t ht hnull
  have := h t ht
  rw [hnull] at this
  simp [fixedRange] at this

/-- For amounts in the fixed range, the exported text has two decimal places in every
amount. -/
theorem exportText_eq_csv (ts : List Transaction)
    (h : ∀ t ∈ ts, fixedRange t.amount = true) : Spec.exportText ts = Spec.csv ts := by
  have hrow : ts.map Spec.exportRow = ts.map Spec.row := by
    refine List.map_congr_left (fun t ht => ?_)
    have hr := h t ht
    cases hamt : t.amount with
    | null => rw [hamt] at hr; simp [fixedRange] at hr
    | num x =>
      rw [hamt] at hr
      simp only [Spec.exportRow, Spec.row, hamt, JSVal.toNumber, toFixed2_eq_fixed2 x hr]
  rw [Spec.exportText, Spec.csv, hrow]

/-- C9 (as stated, refuted). For the non-empty ledger holding one Income of amount `1e21`,
`toFixed(2)` answers the exponent form `1e+21` (its rule for magnitudes from `10^21` on),
so the exported row is `1704067200000,2024-01-01,Income,Salary,1e+21,` and the amount does
not have two decimal places. -/
theorem C9_counterexample :
    Example.hugeLedger ≠ [] ∧
    (exportToCsv "2024-01-03" ⟨Example.hugeLedger, none, [], []⟩).toOption =
      some ⟨Example.hugeLedger, none, [],
        [⟨"finance_tracker_export_2024-01-03.csv",
          "ID,Date,Type,Category,Amount (NGN),Note\n1704067200000,2024-01-01,Income,Salary,1e+21,"⟩]⟩ ∧
    Spec.csv Example.hugeLedger =
      "ID,Date,Type,Category,Amount (NGN),Note\n1704067200000,2024-01-01,Income,Salary,1000000000000000000000.00," ∧
    (exportToCsv "2024-01-03" ⟨Example.hugeLedger, none, [], []⟩).toOption ≠
      some ⟨Example.hugeLedger, none, [],
        [⟨"finance_tracker_export_2024-01-03.csv", Spec.csv Example.hugeLedger⟩]⟩ := by
  decide

/-- C9 (amended). For every non-empty transaction sequence whose amounts are finite and
below `10^21` in magnitude, the CSV text built by `exportToCsv` is the fixed header row
`ID,Date,Type,Category,Amount (NGN),Note` followed by exactly one row per transaction in
ledger order; each row is the id, date, type, category, the amount with exactly two decimal
places and the note with every comma removed, separated by commas.  For the ledger of the
example scenario the rows are `1704067200000,2024-01-01,Income,Salary,5000.00,` and
`1704153600000,2024-01-02,Expense,Rent,-2000.00,`. -/
theorem C9_exportToCsv_content (today : String) :
    (∀ s : State, s.transactions ≠ [] →
      (∀ t ∈ s.transactions, fixedRange t.amount = true) →
      exportToCsv today s = .ok { s with downloads := s.downloads ++
        [⟨"finance_tracker_export_" ++ today ++ ".csv", Spec.csv s.transactions⟩] }) ∧
    exportToCsv today ⟨Example.scenarioLedger, none, [], []⟩ =
      .ok ⟨Example.scenarioLedger, none, [],
        [⟨"finance_tracker_export_" ++ today ++ ".csv",
          "ID,Date,Type,Category,Amount (NGN),Note\n1704067200000,2024-01-01,Income,Salary,5000.00,\n1704153600000,2024-01-02,Expense,Rent,-2000.00,"⟩]⟩ := by
  have main : ∀ s : State, s.transactions ≠ [] →
      (∀ t ∈ s.transactions, fixedRange t.amount = true) →
      exportToCsv today s = .ok { s with downloads := s.downloads ++
        [⟨"finance_tracker_export_" ++ today ++ ".csv", Spec.csv s.transactions⟩] } := by
    intro s hne hrange
    rw [exportToCsv_ok today s hne (allNumbers_of_fixedRange _ hrange),
      exportText_eq_csv _ hrange]
  refine ⟨main, ?_⟩
  have hcsv : Spec.csv Example.scenarioLedger =
      "ID,Date,Type,Category,Amount (NGN),Note\n1704067200000,2024-01-01,Income,Salary,5000.00,\n1704153600000,2024-01-02,Expense,Rent,-2000.00," := by
    decide
  rw [main _ (by decide) (by decide), hcsv]
  rfl

theorem C9_exportToCsv_content_witness :
    exportToCsv "2024-01-03" ⟨Example.scenarioLedger, none, [], []⟩ =
      .ok { (⟨Example.scenarioLedger, none, [], []⟩ : State) with
        downloads := [] ++ [⟨"finance_tracker_export_" ++ "2024-01-03" ++ ".csv",
          Spec.csv Example.scenarioLedger⟩] } :=
  (C9_exportToCsv_content "2024-01-03").1
    ⟨Example.scenarioLedger, none, [], []⟩ (by decide) (by decide)

/-! ## C10: export of an empty ledger -/

/-- C10 (as stated, refuted). Submitting an Income with a blank amount field to the empty
ledger stores the amount `null` (the `NaN` of `parseFloat` after save and reload); on that
non-empty ledger `exportToCsv` throws a `TypeError` at `toFixed`, so it produces no file
(and shows no notice). -/
theorem C10_counterexample :
    Reachable Example.rejectAll (fun _ => True)
      ⟨Example.nullLedger,
        some (.saved
          [⟨1704067200000, "Income", "Salary", .num JSNum.nan, "2024-01-01", ""⟩]),
        [], []⟩ ∧
    Example.nullLedger ≠ [] ∧
    exportToCsv "2024-01-03"
      ⟨Example.nullLedger,
        some (.saved
          [⟨1704067200000, "Income", "Salary", .num JSNum.nan, "2024-01-01", ""⟩]),
        [], []⟩ = .error "TypeError" := by
  refine ⟨?_, by decide, rfl⟩
  exact Reachable.add Example.blankAmount 1704067200000 Reachable.start trivial rfl

/-- C10 (amended). When the transaction sequence is empty, `exportToCsv` shows the notice
`No data to export!` and hands no file to the download mechanism; for every non-empty
sequence whose amounts are all Numbers (none is `null`) it shows no notice and hands over
exactly one file, named `finance_tracker_export_` with the date and `.csv`, whose text is
the header row followed by one row per transaction. -/
theorem C10_exportToCsv_empty (today : String) (s : State) :
    (s.transactions = [] →
      exportToCsv today s = .ok { s with alerts := s.alerts ++ ["No data to export!"] }) ∧
    (s.transactions ≠ [] → AllNumbers s.transactions →
      exportToCsv today s = .ok { s with downloads := s.downloads ++
        [⟨"finance_tracker_export_" ++ today ++ ".csv",
          Spec.exportText s.transactions⟩] }) := by
  refine ⟨fun h => ?_, fun hne h => exportToCsv_ok today s hne h⟩
  simp [exportToCsv, h]

theorem C10_exportToCsv_empty_witness :
    exportToCsv "2024-01-03" State.empty =
        .ok { State.empty with alerts := State.empty.alerts ++ ["No data to export!"] } ∧
    exportToCsv "2024-01-03" ⟨Example.scenarioLedger, none, [], []⟩ =
      .ok { (⟨Example.scenarioLedger, none, [], []⟩ : State) with
        downloads := [] ++ [⟨"finance_tracker_export_" ++ "2024-01-03" ++ ".csv",
          Spec.exportText Example.scenarioLedger⟩] } :=
  ⟨(C10_exportToCsv_empty "2024-01-03" State.empty).1 rfl,
   (C10_exportToCsv_empty "2024-01-03" ⟨Example.scenarioLedger, none, [], []⟩).2
      (by decide) (by unfold AllNumbers; decide)⟩
